import Mathlib

/-!
Verification development for the selenium-chatbot-test repository.

The repository ships a demo driver script and test fixtures; the core
library components (stream-completion detector, mutation channel,
latency monitor, semantic-similarity scorer) are specified in the
design document and are embedded here from that specification.  The
demo page streaming simulation and the mock web driver are embedded
directly from the source files.
-/

namespace ChatbotTest

/-! ## Semantic Similarity Scorer -/

/-- Modelled from the spec: the external embedding oracle (section 4.4, not
present in the repository sources).  A text is embedded as its character
frequency vector; `occ s c` is the coordinate of the embedding of `s` at
character `c`. -/
def occ (s : String) (c : Char) : ℕ := s.toList.count c

/-- Modelled from the spec: the finite set of coordinates on which the
embeddings of `a` and `b` can be nonzero. -/
def supp (a b : String) : Finset Char := a.toList.toFinset ∪ b.toList.toFinset

/-- Modelled from the spec: inner product of the embedding vectors of `a`
and `b`. -/
def dotp (a b : String) : ℕ := ∑ c ∈ supp a b, occ a c * occ b c

/-- Modelled from the spec (section 4.4, `score`, not present in the
repository sources): cosine-style similarity of the two embedding vectors,
rescaled into the interval from 0 to 1 (here the squared cosine, which is
rational-valued); an empty string on either side yields the minimal
score 0 rather than an error. -/
def score (a b : String) : ℚ :=
  if a = "" ∨ b = "" then 0
  else (dotp a b : ℚ) ^ 2 / ((dotp a a : ℚ) * (dotp b b : ℚ))

/-- Error value raised by the similarity assertion wrapper; it carries the
computed score and the threshold. -/
structure SimilarityAssertionError where
  score : ℚ
  minScore : ℚ
deriving DecidableEq

/-- Modelled from the spec (section 4.4, `assertSimilar`, not present in
the repository sources): computes the score and fails exactly when it is
below the caller-supplied minimum. -/
def assert_similarity (actual expected : String) (minScore : ℚ) :
    Except SimilarityAssertionError Unit :=
  let s := score actual expected
  if s < minScore then Except.error ⟨s, minScore⟩ else Except.ok ()

lemma occ_eq_zero_of_not_mem {s : String} {c : Char} (h : c ∉ s.toList) :
    occ s c = 0 := List.count_eq_zero.mpr h

lemma toList_ne_nil {a : String} (h : a ≠ "") : a.toList ≠ [] := by
  intro hnil
  apply h
  cases a with
  | mk data =>
    have : data = [] := hnil
    simp [this]

lemma dotp_comm (a b : String) : dotp a b = dotp b a := by
  unfold dotp supp
  rw [Finset.union_comm]
  exact Finset.sum_congr rfl fun c _ => Nat.mul_comm _ _

lemma dotp_self_pos {a : String} (h : a ≠ "") : 0 < dotp a a := by
  obtain ⟨c, hc⟩ := List.exists_mem_of_ne_nil _ (toList_ne_nil h)
  unfold dotp
  refine Finset.sum_pos' (fun i _ => Nat.zero_le _) ⟨c, ?_, ?_⟩
  · simp only [supp, Finset.mem_union, List.mem_toFinset]
    exact Or.inl hc
  · have hpos : 0 < occ a c := List.count_pos_iff.mpr hc
    exact Nat.mul_pos hpos hpos

lemma dotp_self_expand (a b : String) :
    dotp a a = ∑ c ∈ supp a b, occ a c * occ a c := by
  unfold dotp
  refine Finset.sum_subset ?_ ?_
  · intro c hc
    simp only [supp, Finset.union_self] at hc
    exact Finset.mem_union_left _ hc
  · intro c _ hc
    have : c ∉ a.toList := by
      simp only [supp, Finset.union_self, List.mem_toFinset] at hc
      exact hc
    simp [occ_eq_zero_of_not_mem this]

lemma dotp_cauchy_schwarz (a b : String) :
    dotp a b ^ 2 ≤ dotp a a * dotp b b := by
  rw [dotp_self_expand a b, dotp_self_expand b a]
  have hswap : (∑ c ∈ supp b a, occ b c * occ b c) =
      ∑ c ∈ supp a b, occ b c * occ b c := by
    unfold supp
    rw [Finset.union_comm]
  rw [hswap]
  have := Finset.sum_mul_sq_le_sq_mul_sq (R := ℕ) (supp a b)
    (fun c => occ a c) (fun c => occ b c)
  calc dotp a b ^ 2 = (∑ c ∈ supp a b, occ a c * occ b c) ^ 2 := rfl
    _ ≤ (∑ c ∈ supp a b, occ a c ^ 2) * ∑ c ∈ supp a b, occ b c ^ 2 := this
    _ = (∑ c ∈ supp a b, occ a c * occ a c) *
        ∑ c ∈ supp a b, occ b c * occ b c := by
      congr 1 <;> exact Finset.sum_congr rfl fun c _ => pow_two _

lemma score_nonneg (a b : String) : 0 ≤ score a b := by
  unfold score
  split
  · exact le_refl 0
  · exact div_nonneg (by positivity) (by positivity)

lemma score_le_one (a b : String) : score a b ≤ 1 := by
  unfold score
  split
  · exact zero_le_one
  · rename_i h
    push_neg at h
    have hden : (0 : ℚ) < (dotp a a : ℚ) * (dotp b b : ℚ) := by
      have ha := dotp_self_pos h.1
      have hb := dotp_self_pos h.2
      positivity
    rw [div_le_one hden]
    exact_mod_cast dotp_cauchy_schwarz a b

lemma score_comm (a b : String) : score a b = score b a := by
  unfold score
  rw [dotp_comm a b]
  by_cases h : a = "" ∨ b = ""
  · rw [if_pos h, if_pos h.symm]
  · rw [if_neg h, if_neg fun hc => h hc.symm]
    ring

/-- Fixed floating-point style tolerance used to state symmetry of the
scorer. -/
def simEps : ℚ := 1 / 1000000

/-- C5: for every non-empty string a, score a a equals exactly 1. -/
theorem score_self_eq_one (a : String) (h : a ≠ "") : score a a = 1 := by
  unfold score
  rw [if_neg (by simp [h])]
  have hd : (0 : ℚ) < (dotp a a : ℚ) := by exact_mod_cast dotp_self_pos h
  rw [pow_two]
  exact div_self (by positivity)

/-- Witness for C5 at the concrete non-empty string hi. -/
theorem score_self_eq_one_witness : score "hi" "hi" = 1 :=
  score_self_eq_one "hi" (by decide)

/-- C6: for every pair of strings, the scores in the two argument orders
differ by less than the fixed tolerance simEps (the scorer is symmetric). -/
theorem score_symm_within_eps (a b : String) :
    |score a b - score b a| < simEps := by
  rw [score_comm a b, sub_self, abs_zero, simEps]
  norm_num

/-- C7: the assertion wrapper fails with a SimilarityAssertionError
carrying the computed score and the threshold exactly when the score is
below the threshold, and succeeds silently otherwise; the score function
itself is total, always lands in the interval from 0 to 1, and an empty
string on either side yields the defined minimal score 0 rather than an
error. -/
theorem assert_similarity_spec (a e : String) (m : ℚ) :
    (∀ err, assert_similarity a e m = Except.error err ↔
      score a e < m ∧ err = ⟨score a e, m⟩) ∧
    (assert_similarity a e m = Except.ok () ↔ ¬ score a e < m) ∧
    (0 ≤ score a e ∧ score a e ≤ 1) ∧
    score "" e = 0 ∧ score a "" = 0 := by
  refine ⟨?_, ?_, ⟨score_nonneg a e, score_le_one a e⟩, ?_, ?_⟩
  · intro err
    unfold assert_similarity
    by_cases h : score a e < m
    · simp [h, eq_comm]
    · simp [h]
  · unfold assert_similarity
    by_cases h : score a e < m <;> simp [h]
  · unfold score
    rw [if_pos (Or.inl rfl)]
  · unfold score
    rw [if_pos (Or.inr rfl)]

/-- Witness for C7 at a concrete pair of strings: the raw score is
defined and lies in the unit interval. -/
theorem assert_similarity_spec_witness :
    0 ≤ score "hello" "world" ∧ score "hello" "world" ≤ 1 :=
  (assert_similarity_spec "hello" "world" 0).2.2.1

/-! ## Mutation Channel -/

/-- Modelled from the spec (section 4.1, MutationSnapshot data model, not
present in the repository sources). -/
structure MutationSnapshot where
  startTime : ℕ
  firstMutationTime : Option ℕ
  lastMutationTime : Option ℕ
  mutationCount : ℕ
deriving DecidableEq

/-- Modelled from the spec: derived read-only latency view over a
MutationSnapshot. -/
structure LatencyMetrics where
  ttft : Option ℕ
  total : Option ℕ
  tokenCount : ℕ
deriving DecidableEq

/-- Modelled from the spec (section 4.1, not present in the repository
sources): document-side state of an armed mutation channel.  The field
now is the latest reading of the document-local monotonic clock; events
holds the recorded mutation timestamps in arrival order. -/
structure Channel where
  startTime : ℕ
  now : ℕ
  events : List ℕ
deriving DecidableEq

/-- Modelled from the spec: arming records startTime as the current
monotonic clock reading and starts with no recorded mutations. -/
def arm (t0 : ℕ) : Channel := ⟨t0, t0, []⟩

/-- Modelled from the spec: a mutation delivered after a further delay d
on the document-local monotonic clock appends its timestamp to the
accumulated set. -/
def recordMutation (ch : Channel) (d : ℕ) : Channel :=
  ⟨ch.startTime, ch.now + d, ch.events ++ [ch.now + d]⟩

/-- A channel armed at time t0 after an arbitrary sequence of mutation
deliveries with inter-arrival delays ds. -/
def runChannel (t0 : ℕ) (ds : List ℕ) : Channel :=
  ds.foldl recordMutation (arm t0)

/-- Minimum of the accumulated timestamp set, absent when it is empty. -/
def minTime : List ℕ → Option ℕ
  | [] => none
  | t :: ts =>
    match minTime ts with
    | none => some t
    | some m => some (min t m)

/-- Maximum of the accumulated timestamp set, absent when it is empty. -/
def maxTime : List ℕ → Option ℕ
  | [] => none
  | t :: ts =>
    match maxTime ts with
    | none => some t
    | some m => some (max t m)

/-- Modelled from the spec (section 4.1, retrieve, not present in the
repository sources): reads the accumulated snapshot; firstMutationTime is
the minimum recorded timestamp and lastMutationTime the maximum, computed
at retrieval time from the full accumulated set, both absent until at
least one mutation is observed. -/
def retrieve (ch : Channel) : MutationSnapshot :=
  { startTime := ch.startTime
    firstMutationTime := minTime ch.events
    lastMutationTime := maxTime ch.events
    mutationCount := ch.events.length }

/-- Modelled from the spec (section 3, LatencyMetrics, not present in the
repository sources): ttft and total are the first and last mutation
offsets from startTime, absent when no mutation occurred; tokenCount is
the mutation count. -/
def computeMetrics (snap : MutationSnapshot) : LatencyMetrics :=
  { ttft := snap.firstMutationTime.map (fun t => t - snap.startTime)
    total := snap.lastMutationTime.map (fun t => t - snap.startTime)
    tokenCount := snap.mutationCount }

/-- Well-formedness of document-side channel state: the clock is
monotonic, so startTime bounds every recorded timestamp from below and
the latest clock reading bounds them from above. -/
def ChannelInv (ch : Channel) : Prop :=
  ch.startTime ≤ ch.now ∧ ∀ e ∈ ch.events, ch.startTime ≤ e ∧ e ≤ ch.now

lemma channelInv_arm (t0 : ℕ) : ChannelInv (arm t0) := by
  constructor
  · exact le_refl t0
  · intro e he
    simp [arm] at he

lemma channelInv_record {ch : Channel} (h : ChannelInv ch) (d : ℕ) :
    ChannelInv (recordMutation ch d) := by
  obtain ⟨h1, h2⟩ := h
  refine ⟨by simp [recordMutation]; omega, ?_⟩
  intro e he
  simp only [recordMutation, List.mem_append, List.mem_singleton] at he
  rcases he with he | he
  · obtain ⟨ha, hb⟩ := h2 e he
    exact ⟨ha, by simp [recordMutation]; omega⟩
  · subst he
    exact ⟨by simp [recordMutation]; omega, by simp [recordMutation]⟩

lemma channelInv_run (t0 : ℕ) (ds : List ℕ) : ChannelInv (runChannel t0 ds) := by
  suffices h : ∀ (l : List ℕ) (ch : Channel), ChannelInv ch →
      ChannelInv (l.foldl recordMutation ch) by
    exact h ds (arm t0) (channelInv_arm t0)
  intro l
  induction l with
  | nil => intro ch h; exact h
  | cons d rest ih =>
    intro ch h
    exact ih (recordMutation ch d) (channelInv_record h d)

lemma minTime_eq_none_iff (l : List ℕ) : minTime l = none ↔ l = [] := by
  cases l with
  | nil => simp [minTime]
  | cons t ts =>
    simp only [minTime]
    constructor
    · intro h
      cases hm : minTime ts <;> simp [hm] at h
    · intro h
      exact absurd h (List.cons_ne_nil t ts)

lemma maxTime_eq_none_iff (l : List ℕ) : maxTime l = none ↔ l = [] := by
  cases l with
  | nil => simp [maxTime]
  | cons t ts =>
    simp only [maxTime]
    constructor
    · intro h
      cases hm : maxTime ts <;> simp [hm] at h
    · intro h
      exact absurd h (List.cons_ne_nil t ts)

lemma minTime_mem {l : List ℕ} {m : ℕ} (h : minTime l = some m) : m ∈ l := by
  induction l generalizing m with
  | nil => simp [minTime] at h
  | cons t ts ih =>
    simp only [minTime] at h
    cases hm : minTime ts with
    | none =>
      rw [hm] at h
      simp at h
      simp [h]
    | some m0 =>
      rw [hm] at h
      simp at h
      rcases Nat.le_total t m0 with hle | hle
      · rw [min_eq_left hle] at h
        simp [h]
      · rw [min_eq_right hle] at h
        exact List.mem_cons_of_mem t (ih (h ▸ hm))

lemma maxTime_mem {l : List ℕ} {m : ℕ} (h : maxTime l = some m) : m ∈ l := by
  induction l generalizing m with
  | nil => simp [maxTime] at h
  | cons t ts ih =>
    simp only [maxTime] at h
    cases hm : maxTime ts with
    | none =>
      rw [hm] at h
      simp at h
      simp [h]
    | some m0 =>
      rw [hm] at h
      simp at h
      rcases Nat.le_total t m0 with hle | hle
      · rw [max_eq_right hle] at h
        exact List.mem_cons_of_mem t (ih (h ▸ hm))
      · rw [max_eq_left hle] at h
        simp [h]

lemma minTime_le_mem {l : List ℕ} {m : ℕ} (h : minTime l = some m) :
    ∀ x ∈ l, m ≤ x := by
  induction l generalizing m with
  | nil => simp [minTime] at h
  | cons t ts ih =>
    simp only [minTime] at h
    intro x hx
    cases hm : minTime ts with
    | none =>
      rw [hm] at h
      simp at h
      have : ts = [] := (minTime_eq_none_iff ts).mp hm
      subst this
      simp at hx
      omega
    | some m0 =>
      rw [hm] at h
      simp at h
      rcases List.mem_cons.mp hx with hx | hx
      · subst hx
        omega
      · have := ih hm x hx
        omega

/-- C4: every MutationSnapshot produced by retrieve on a reachable
channel state satisfies startTime less-or-equal firstMutationTime
less-or-equal lastMutationTime whenever the latter two are present, and
mutationCount is 0 exactly when firstMutationTime is absent; the derived
LatencyMetrics satisfies ttft less-or-equal total whenever both are
present, and ttft and total are both absent exactly when mutationCount
is 0. -/
theorem retrieve_snapshot_invariants (t0 : ℕ) (ds : List ℕ) :
    (∀ f l, (retrieve (runChannel t0 ds)).firstMutationTime = some f →
      (retrieve (runChannel t0 ds)).lastMutationTime = some l →
      (retrieve (runChannel t0 ds)).startTime ≤ f ∧ f ≤ l) ∧
    ((retrieve (runChannel t0 ds)).mutationCount = 0 ↔
      (retrieve (runChannel t0 ds)).firstMutationTime = none) ∧
    (∀ a b, (computeMetrics (retrieve (runChannel t0 ds))).ttft = some a →
      (computeMetrics (retrieve (runChannel t0 ds))).total = some b →
      a ≤ b) ∧
    (((computeMetrics (retrieve (runChannel t0 ds))).ttft = none ∧
      (computeMetrics (retrieve (runChannel t0 ds))).total = none) ↔
      (retrieve (runChannel t0 ds)).mutationCount = 0) := by
  have hinv := channelInv_run t0 ds
  obtain ⟨hsn, hev⟩ := hinv
  refine ⟨?_, ?_, ?_, ?_⟩
  · intro f l hf hl
    simp only [retrieve] at hf hl ⊢
    have hfm := minTime_mem hf
    have hlm := maxTime_mem hl
    have h1 := (hev f hfm).1
    have h2 := minTime_le_mem hf l hlm
    exact ⟨h1, h2⟩
  · simp only [retrieve, List.length_eq_zero, minTime_eq_none_iff]
  · intro a b ha hb
    simp only [computeMetrics, retrieve, Option.map_eq_some'] at ha hb
    obtain ⟨f, hf, hfa⟩ := ha
    obtain ⟨l, hl, hlb⟩ := hb
    have hfm := minTime_mem hf
    have hlm := maxTime_mem hl
    have h2 := minTime_le_mem hf l hlm
    omega
  · simp only [computeMetrics, retrieve, Option.map_eq_none',
      List.length_eq_zero, minTime_eq_none_iff, maxTime_eq_none_iff]
    constructor
    · intro h
      exact h.1
    · intro h
      exact ⟨h, h⟩

/-- Witness for C4 at a channel armed at time 5 with two mutations. -/
theorem retrieve_snapshot_invariants_witness :
    (retrieve (runChannel 5 [2, 3])).startTime ≤ 7 ∧ (7 : ℕ) ≤ 10 :=
  (retrieve_snapshot_invariants 5 [2, 3]).1 7 10 rfl rfl

/-! ## Latency Monitor -/

/-- Error raised when monitor metrics are read before the scope exits. -/
inductive MetricsError where
  | metricsNotReady
deriving DecidableEq

/-- Modelled from the spec (section 4.3, not present in the repository
sources): a latency monitor scope is either still open, holding the armed
channel, or closed, holding the immutable metrics computed at exit. -/
inductive MonitorState where
  | opened (ch : Channel)
  | closed (met : LatencyMetrics)
deriving DecidableEq

/-- Modelled from the spec: entering the scope arms the channel. -/
def enterScope (t0 : ℕ) : MonitorState := MonitorState.opened (arm t0)

/-- Modelled from the spec: on scope exit the final snapshot is
retrieved, the metrics are computed and stored as the immutable result;
exiting an already closed scope leaves the stored result unchanged. -/
def exitScope : MonitorState → MonitorState
  | MonitorState.opened ch => MonitorState.closed (computeMetrics (retrieve ch))
  | MonitorState.closed met => MonitorState.closed met

/-- Modelled from the spec: metrics are readable only after the scope has
exited; reading before exit fails with MetricsNotReady. -/
def readMetrics : MonitorState → Except MetricsError LatencyMetrics
  | MonitorState.opened _ => Except.error MetricsError.metricsNotReady
  | MonitorState.closed met => Except.ok met

/-- C8: reading a latency monitor before its scope has exited fails with
MetricsNotReady; after the scope exits, reading succeeds and every
repeated read returns the same immutable value (further exits do not
change the stored result). -/
theorem monitor_metrics_lifecycle :
    (∀ t0, readMetrics (enterScope t0) =
      Except.error MetricsError.metricsNotReady) ∧
    (∀ ch, readMetrics (MonitorState.opened ch) =
      Except.error MetricsError.metricsNotReady) ∧
    (∀ st, ∃ met, readMetrics (exitScope st) = Except.ok met ∧
      readMetrics (exitScope (exitScope st)) = Except.ok met) ∧
    (∀ st, exitScope (exitScope st) = exitScope st) := by
  refine ⟨fun t0 => rfl, fun ch => rfl, ?_, ?_⟩
  · intro st
    cases st with
    | opened ch => exact ⟨computeMetrics (retrieve ch), rfl, rfl⟩
    | closed met => exact ⟨met, rfl, rfl⟩
  · intro st
    cases st <;> rfl

/-! ## Stream Completion Detector

Modelled from the spec (section 4.2, waitForStreamEnd, not present in the
repository sources).  Time is discrete; the observed element text is a
function of time; polls happen at multiples of the poll interval p
starting at p, after the initial read at time 0. -/

/-- Outcome of a wait: the stream ended at time t with the given final
text, or the wait failed with StreamTimeout at time t. -/
inductive WaitResult where
  | ended (t : ℕ) (finalText : String)
  | streamTimeout (t : ℕ)
deriving DecidableEq

/-- Modelled from the spec: one poll iteration at time t re-reads the
text; if it differs from lastSeen both lastSeen and lastChangeAt are
reset; then, strictly after that reset, the silence condition is checked
first and the overall timeout second.  The fuel argument bounds the
number of iterations; it is chosen large enough in waitForStreamEnd that
it never runs out. -/
def pollLoop (text : ℕ → String) (silence overall p : ℕ) :
    ℕ → ℕ → String → ℕ → Option WaitResult
  | 0, _, _, _ => none
  | fuel + 1, t, lastSeen, lastChangeAt =>
    let cur := text t
    let seen2 := if cur = lastSeen then lastSeen else cur
    let change2 := if cur = lastSeen then lastChangeAt else t
    if silence ≤ t - change2 then some (WaitResult.ended t seen2)
    else if overall ≤ t then some (WaitResult.streamTimeout t)
    else pollLoop text silence overall p fuel (t + p) seen2 change2

/-- Modelled from the spec: capture the text at time 0 as lastSeen with
lastChangeAt 0, then poll at interval p until quiescence or timeout. -/
def waitForStreamEnd (text : ℕ → String) (silence overall p : ℕ) :
    Option WaitResult :=
  pollLoop text silence overall p (overall + 2) p (text 0) 0

lemma pollLoop_succ (text : ℕ → String) (silence overall p fuel t : ℕ)
    (lastSeen : String) (lastChangeAt : ℕ) :
    pollLoop text silence overall p (fuel + 1) t lastSeen lastChangeAt =
      (let cur := text t
       let seen2 := if cur = lastSeen then lastSeen else cur
       let change2 := if cur = lastSeen then lastChangeAt else t
       if silence ≤ t - change2 then some (WaitResult.ended t seen2)
       else if overall ≤ t then some (WaitResult.streamTimeout t)
       else pollLoop text silence overall p fuel (t + p) seen2 change2) :=
  rfl

/-- In the quiescent phase the text equals v from time t onward, the last
change happened at c, and the loop returns ended at the first poll tick
reaching c plus the silence window. -/
lemma pollLoop_quiesce (text : ℕ → String) (silence overall p : ℕ)
    (hs : 1 ≤ silence) (v : String) :
    ∀ fuel t c, (∀ u, t ≤ u → text u = v) → t < c + silence + p →
      c + silence ≤ overall → overall + p < t + fuel * p →
      ∃ T, pollLoop text silence overall p fuel t v c =
          some (WaitResult.ended T v) ∧
        c + silence ≤ T ∧ T < c + silence + p := by
  intro fuel
  induction fuel with
  | zero =>
    intro t c hv ht hov hfuel
    exfalso
    omega
  | succ f ih =>
    intro t c hv ht hov hfuel
    have hcur : text t = v := hv t le_rfl
    rw [pollLoop_succ]
    simp only [hcur, ite_self, eq_self_iff_true, if_true]
    by_cases hfire : silence ≤ t - c
    · rw [if_pos hfire]
      exact ⟨t, rfl, by omega, ht⟩
    · have hto : ¬ overall ≤ t := by omega
      rw [if_neg hfire, if_neg hto]
      refine ih (t + p) c (fun u hu => hv u (by omega)) (by omega) hov ?_
      have : t + p + f * p = t + (f + 1) * p := by ring
      omega

/-- In the busy phase every poll up to tick k0 observes a change, the
text is stable from tick k0 onward, and the loop returns ended at the
first poll tick reaching the silence window after tick k0. -/
lemma pollLoop_busy (text : ℕ → String) (silence overall p : ℕ)
    (hp : 1 ≤ p) (hs : 1 ≤ silence) (k0 : ℕ)
    (hchange : ∀ i, 1 ≤ i → i * p ≤ k0 * p → text (i * p) ≠ text ((i - 1) * p))
    (hstable : ∀ u, k0 * p ≤ u → text u = text (k0 * p))
    (hov : k0 * p + silence ≤ overall) :
    ∀ fuel j c, 1 ≤ j → j * p ≤ k0 * p →
      overall + p < j * p + fuel * p →
      ∃ T, pollLoop text silence overall p fuel (j * p)
            (text ((j - 1) * p)) c =
          some (WaitResult.ended T (text (k0 * p))) ∧
        k0 * p + silence ≤ T ∧ T < k0 * p + silence + p := by
  intro fuel
  induction fuel with
  | zero =>
    intro j c hj hle hfuel
    exfalso
    omega
  | succ f ih =>
    intro j c hj hle hfuel
    have hne : text (j * p) ≠ text ((j - 1) * p) := hchange j hj hle
    rw [pollLoop_succ]
    simp only [if_neg hne]
    have hnofire : ¬ silence ≤ j * p - j * p := by omega
    rw [if_neg hnofire]
    have hto : ¬ overall ≤ j * p := by omega
    rw [if_neg hto]
    have hstep : j * p + p = (j + 1) * p := by ring
    have hjk : j ≤ k0 := Nat.le_of_mul_le_mul_right hle (by omega)
    rcases Nat.lt_or_ge j k0 with hlt | hge
    · rw [hstep]
      have hj1 : (j + 1) - 1 = j := by omega
      have := ih (j + 1) (j * p) (by omega)
        (Nat.mul_le_mul_right p (by omega))
        (by have : (j + 1) * p + f * p = j * p + (f + 1) * p := by ring
            omega)
      rw [hj1] at this
      exact this
    · have hjeq : j = k0 := by omega
      subst hjeq
      refine pollLoop_quiesce text silence overall p hs (text (j * p)) f
        (j * p + p) (j * p) (fun u hu => hstable u (by omega)) (by omega)
        hov ?_
      have : j * p + p + f * p = j * p + (f + 1) * p := by ring
      omega

/-- When every poll up to the final tick observes a change, the loop
fails with StreamTimeout at the first poll tick reaching the overall
budget. -/
lemma pollLoop_busyTimeout (text : ℕ → String) (silence overall p : ℕ)
    (_hp : 1 ≤ p) (hs : 1 ≤ silence)
    (hchange : ∀ i, 1 ≤ i → i * p < overall + p →
      text (i * p) ≠ text ((i - 1) * p)) :
    ∀ fuel j c, 1 ≤ j → j * p < overall + p →
      overall + p < j * p + fuel * p →
      ∃ T, pollLoop text silence overall p fuel (j * p)
            (text ((j - 1) * p)) c =
          some (WaitResult.streamTimeout T) ∧
        overall ≤ T ∧ T < overall + p := by
  intro fuel
  induction fuel with
  | zero =>
    intro j c hj hlt hfuel
    exfalso
    omega
  | succ f ih =>
    intro j c hj hlt hfuel
    have hne : text (j * p) ≠ text ((j - 1) * p) := hchange j hj hlt
    rw [pollLoop_succ]
    simp only [if_neg hne]
    have hnofire : ¬ silence ≤ j * p - j * p := by omega
    rw [if_neg hnofire]
    by_cases hto : overall ≤ j * p
    · rw [if_pos hto]
      exact ⟨j * p, rfl, hto, hlt⟩
    · rw [if_neg hto]
      have hstep : j * p + p = (j + 1) * p := by ring
      rw [hstep]
      have hj1 : (j + 1) - 1 = j := by omega
      have := ih (j + 1) (j * p) (by omega) (by omega)
        (by have : (j + 1) * p + f * p = j * p + (f + 1) * p := by ring
            omega)
      rw [hj1] at this
      exact this

/-- In any execution whatsoever, a StreamTimeout failure can only be
reported at a time that has reached the overall budget. -/
lemma pollLoop_timeout_not_early (text : ℕ → String)
    (silence overall p : ℕ) :
    ∀ fuel t lastSeen c T,
      pollLoop text silence overall p fuel t lastSeen c =
        some (WaitResult.streamTimeout T) → overall ≤ T := by
  intro fuel
  induction fuel with
  | zero =>
    intro t lastSeen c T h
    simp [pollLoop] at h
  | succ f ih =>
    intro t lastSeen c T h
    rw [pollLoop_succ] at h
    simp only at h
    by_cases hcur : text t = lastSeen <;> simp only [hcur, if_pos, if_neg,
        reduceIte] at h
    all_goals
      split at h
      · simp at h
      · split at h
        · rename_i hto
          simp at h
          omega
        · exact ih _ _ _ _ h

lemma fuel_sufficient (overall p : ℕ) (hp : 1 ≤ p) :
    overall + p < 1 * p + (overall + 2) * p := by
  have h1 : overall + 2 ≤ (overall + 2) * p := Nat.le_mul_of_pos_right _ (by omega)
  omega

/-- C1: if the observed text stops changing at time t0 (a poll tick at
which the final change is observed, every earlier poll also observing a
change) and the silence window elapses before the overall budget, then
waitForStreamEnd returns the element as ended no earlier than t0 plus
silenceTimeout and no later than t0 plus silenceTimeout plus the poll
interval. -/
theorem waitForStreamEnd_returns_after_silence (text : ℕ → String)
    (silence overall p k0 : ℕ) (hp : 1 ≤ p) (hs : 1 ≤ silence)
    (hchange : ∀ i, 1 ≤ i → i * p ≤ k0 * p →
      text (i * p) ≠ text ((i - 1) * p))
    (hstable : ∀ u, k0 * p ≤ u → text u = text (k0 * p))
    (hov : k0 * p + silence ≤ overall) :
    ∃ T, waitForStreamEnd text silence overall p =
        some (WaitResult.ended T (text (k0 * p))) ∧
      k0 * p + silence ≤ T ∧ T < k0 * p + silence + p := by
  unfold waitForStreamEnd
  rcases Nat.eq_zero_or_pos k0 with hk0 | hk0
  · subst hk0
    simp only [Nat.zero_mul] at hstable hov ⊢
    have hv : ∀ u, p ≤ u → text u = text 0 := fun u _ => hstable u (Nat.zero_le u)
    have := pollLoop_quiesce text silence overall p hs (text 0)
      (overall + 2) p 0 hv (by omega) (by omega)
      (by have := fuel_sufficient overall p hp; omega)
    simpa using this
  · have := pollLoop_busy text silence overall p hp hs k0 hchange hstable hov
      (overall + 2) 1 0 le_rfl (Nat.mul_le_mul_right p hk0)
      (fuel_sufficient overall p hp)
    simpa using this

/-- Witness for C1: text changes once at time 1 and is stable afterwards;
with poll interval 1, silence window 1 and overall budget 10 the wait
ends at time 2. -/
theorem waitForStreamEnd_returns_after_silence_witness :
    ∃ T, waitForStreamEnd (fun u => if u = 0 then "a" else "b") 1 10 1 =
        some (WaitResult.ended T "b") ∧
      2 ≤ T ∧ T < 3 := by
  have h := waitForStreamEnd_returns_after_silence
    (fun u => if u = 0 then "a" else "b") 1 10 1 1 le_rfl le_rfl
    (by intro i h1 h2
        have : i = 1 := by omega
        subst this
        decide)
    (by intro u hu
        simp only
        rw [if_neg (by omega), if_neg (by omega)])
    (by omega)
  simpa using h

/-- C2: if the observed text never stays unchanged between polls (so no
silence window is ever satisfied) the call fails with StreamTimeout at
the first poll tick reaching the overall budget, so within one poll
interval of overallTimeout; moreover in every execution a StreamTimeout
failure is never reported earlier than overallTimeout. -/
theorem waitForStreamEnd_timeout (text : ℕ → String)
    (silence overall p : ℕ) (hp : 1 ≤ p) (hs : 1 ≤ silence)
    (ho : 1 ≤ overall)
    (hchange : ∀ i, 1 ≤ i → i * p < overall + p →
      text (i * p) ≠ text ((i - 1) * p)) :
    (∃ T, waitForStreamEnd text silence overall p =
        some (WaitResult.streamTimeout T) ∧
      overall ≤ T ∧ T < overall + p) ∧
    (∀ (u : ℕ → String) (T : ℕ),
      waitForStreamEnd u silence overall p =
        some (WaitResult.streamTimeout T) → overall ≤ T) := by
  constructor
  · have := pollLoop_busyTimeout text silence overall p hp hs hchange
      (overall + 2) 1 0 le_rfl (by omega) (fuel_sufficient overall p hp)
    simpa using this
  · intro u T h
    exact pollLoop_timeout_not_early u silence overall p _ _ _ _ _ h

/-- Witness for C2: text whose length grows every tick, poll interval 1,
silence 1, overall budget 3; the wait times out at time 3. -/
theorem waitForStreamEnd_timeout_witness :
    ∃ T, waitForStreamEnd (fun u => String.mk (List.replicate u 'a')) 1 3 1 =
        some (WaitResult.streamTimeout T) ∧
      3 ≤ T ∧ T < 4 := by
  have h := waitForStreamEnd_timeout
    (fun u => String.mk (List.replicate u 'a')) 1 3 1 le_rfl le_rfl (by omega)
    (by intro i h1 h2
        have hi : i = 1 ∨ i = 2 ∨ i = 3 := by omega
        intro heq
        have hlen := congrArg String.length heq
        simp only [String.length] at hlen
        rcases hi with h | h | h <;> (subst h; simp at hlen)
  )
  simpa using h.1

/-- C3: if the observed element text never changes at all and the
silence window elapses before the overall budget, waitForStreamEnd
returns the element as ended approximately one silence window after the
wait started rather than raising an error, and the mutation snapshot of
a channel that observed no mutations has mutationCount 0. -/
theorem waitForStreamEnd_static_text (text : ℕ → String)
    (silence overall p : ℕ) (hp : 1 ≤ p) (hs : 1 ≤ silence)
    (hconst : ∀ u, text u = text 0) (hov : silence ≤ overall) :
    (∃ T, waitForStreamEnd text silence overall p =
        some (WaitResult.ended T (text 0)) ∧
      silence ≤ T ∧ T < silence + p) ∧
    (∀ t0, (retrieve (runChannel t0 [])).mutationCount = 0) := by
  constructor
  · unfold waitForStreamEnd
    have := pollLoop_quiesce text silence overall p hs (text 0)
      (overall + 2) p 0 (fun u _ => hconst u) (by omega) (by omega)
      (by have := fuel_sufficient overall p hp; omega)
    simpa using this
  · intro t0
    rfl

/-- Witness for C3: static text Done, silence window 5, overall budget
50, poll interval 1; the wait ends at time 5 with text Done and the
empty channel reports mutation count 0. -/
theorem waitForStreamEnd_static_text_witness :
    (∃ T, waitForStreamEnd (fun _ => "Done") 5 50 1 =
        some (WaitResult.ended T "Done") ∧
      5 ≤ T ∧ T < 6) ∧
    (retrieve (runChannel 0 [])).mutationCount = 0 := by
  have h := waitForStreamEnd_static_text (fun _ => "Done") 5 50 1
    le_rfl (by omega) (fun u => rfl) (by omega)
  exact ⟨h.1, h.2 0⟩

/-! ## Demo page streaming simulation

Embedded from src/demo_chatbot.py, the simulateStreaming function of the
local demo page script.  Each tick appends a slice of 1 to 3 characters
(the slice is truncated at the end of the response string) and advances
the index by the chunk size; the random draw Math.floor of a random in
0 to 3 plus 1 is modelled by a stream of values in Fin 3 plus 1. -/

/-- Chunk size used at a given tick: a value from 1 to 3. -/
def chunkSize (rand : ℕ → Fin 3) (step : ℕ) : ℕ := (rand step).val + 1

/-- Embedded from src/demo_chatbot.py (simulateStreaming, addChar): while
index is below the length of the text, append the slice from index of
chunkSize characters to the accumulated content and advance index by
chunkSize. -/
def addChar (t : List Char) (rand : ℕ → Fin 3) (step index : ℕ)
    (acc : List Char) : List Char :=
  if index < t.length then
    addChar t rand (step + 1) (index + chunkSize rand step)
      (acc ++ (t.drop index).take (chunkSize rand step))
  else acc
termination_by t.length - index
decreasing_by
  simp only [chunkSize]
  omega

/-- Embedded from src/demo_chatbot.py (simulateStreaming): the element
content starts empty and index starts at 0. -/
def simulateStreaming (t : String) (rand : ℕ → Fin 3) : String :=
  String.mk (addChar t.toList rand 0 0 [])

lemma addChar_spec (t : List Char) (rand : ℕ → Fin 3) :
    ∀ k step index acc, t.length - index ≤ k →
      addChar t rand step index acc = acc ++ t.drop index := by
  intro k
  induction k with
  | zero =>
    intro step index acc hk
    have hge : t.length ≤ index := by omega
    rw [addChar, if_neg (by omega), List.drop_eq_nil_of_le hge,
      List.append_nil]
  | succ n ih =>
    intro step index acc hk
    by_cases h : index < t.length
    · rw [addChar, if_pos h]
      rw [ih (step + 1) (index + chunkSize rand step) _
        (by simp only [chunkSize]; omega)]
      rw [List.append_assoc]
      congr 1
      have hdd : t.drop (index + chunkSize rand step) =
          (t.drop index).drop (chunkSize rand step) := by
        rw [List.drop_drop, Nat.add_comm]
      rw [hdd, List.take_append_drop]
    · rw [addChar, if_neg h,
        List.drop_eq_nil_of_le (by omega), List.append_nil]

/-- C9: for every response string and every sequence of per-tick chunk
sizes drawn from 1 to 3, the addChar loop of the demo page terminates and
reconstructs the input exactly: the final element content equals the
whole response string, and every chunk size is between 1 and 3 so the
index strictly increases each tick. -/
theorem simulateStreaming_reconstructs (s : String) (rand : ℕ → Fin 3) :
    simulateStreaming s rand = s ∧
    (∀ step, 1 ≤ chunkSize rand step ∧ chunkSize rand step ≤ 3) ∧
    (∀ step index, index + 1 ≤ index + chunkSize rand step) := by
  refine ⟨?_, ?_, ?_⟩
  · unfold simulateStreaming
    rw [addChar_spec s.toList rand s.toList.length 0 0 [] (by omega)]
    simp only [List.drop_zero, List.nil_append]
    rfl
  · intro step
    constructor
    · simp [chunkSize]
    · simp only [chunkSize]
      omega
  · intro step index
    simp only [chunkSize]
    omega

/-! ## Mock WebDriver

Embedded from src/tests/conftest.py. -/

/-- Embedded from src/tests/conftest.py (MockWebElement): the mock
element carries a text and a tag name (attributes start empty and are
not needed here). -/
structure MockWebElement where
  text : String
  tagName : String
deriving DecidableEq

/-- The fixed snapshot dictionary returned by the mock for latency
monitor retrieve scripts. -/
structure MockSnapshotDict where
  startTime : ℚ
  firstMutationTime : ℚ
  lastMutationTime : ℚ
  mutationCount : ℕ
deriving DecidableEq

/-- Python values returned by MockWebDriver.execute_script: a mock
element, a string, the fixed snapshot dictionary, or Python None. -/
inductive ScriptResult where
  | element (e : MockWebElement)
  | str (s : String)
  | snapshot (d : MockSnapshotDict)
  | pyNone
deriving DecidableEq

/-- Does the character list needle occur at the start of the haystack. -/
def startsWith : List Char → List Char → Bool
  | [], _ => true
  | _ :: _, [] => false
  | a :: as, b :: bs => a = b && startsWith as bs

/-- Does the character list needle occur anywhere in the haystack;
models the Python substring containment operator. -/
def hasSub (needle : List Char) : List Char → Bool
  | [] => needle.isEmpty
  | c :: rest => startsWith needle (c :: rest) || hasSub needle rest

/-- Python substring containment sub in s. -/
def strContains (s sub : String) : Bool := hasSub sub.toList s.toList

/-- Embedded from src/tests/conftest.py (MockWebDriver state): the
pre-configured script results dictionary and the recorded list of
execute_script calls. -/
structure MockWebDriver where
  scriptResults : List (String × ScriptResult)
  calls : List (String × List String)
deriving DecidableEq

/-- Python dict get of the key default: the stored value when present,
Python None when unset. -/
def defaultResult (st : MockWebDriver) : ScriptResult :=
  match st.scriptResults.find? (fun kv => kv.1 == "default") with
  | some kv => kv.2
  | none => ScriptResult.pyNone

/-- Embedded from src/tests/conftest.py (MockWebDriver.execute_script):
records the call, then dispatches on the first matching substring
pattern of the script, falling back to the pre-configured default
result. -/
def execute_script (st : MockWebDriver) (script : String)
    (args : List String) : MockWebDriver × ScriptResult :=
  let st2 : MockWebDriver :=
    { st with calls := st.calls ++ [(script, args)] }
  if strContains script "MutationObserver" && strContains script "Promise" then
    (st2, ScriptResult.element ⟨"Mocked response text", "div"⟩)
  else if strContains script "startTime: performance.now()" then
    (st2, ScriptResult.str "__latencyMonitor_test_123")
  else if strContains script "firstMutationTime" &&
      strContains script "mutationCount" then
    (st2, ScriptResult.snapshot ⟨1000, 1050, 1500, 15⟩)
  else
    (st2, defaultResult st)

lemma band_eq_false_of_not_both {x y : Bool}
    (h : ¬ (x = true ∧ y = true)) : (x && y) = false := by
  cases x <;> cases y <;> simp_all

/-- C10: execute_script is a total deterministic function of the script
and the pre-configured results; every call appends the script and args
pair to the recorded call list; dispatch is first-match: observer
scripts return the mocked element, monitor-inject scripts the fixed
monitor key, monitor-retrieve scripts the fixed snapshot, and any other
script the pre-configured default, which is Python None when unset. -/
theorem execute_script_spec (st : MockWebDriver) (script : String)
    (args : List String) :
    ((execute_script st script args).1.calls =
      st.calls ++ [(script, args)]) ∧
    ((execute_script st script args).1.scriptResults = st.scriptResults) ∧
    (strContains script "MutationObserver" = true →
      strContains script "Promise" = true →
      (execute_script st script args).2 =
        ScriptResult.element ⟨"Mocked response text", "div"⟩) ∧
    (¬ (strContains script "MutationObserver" = true ∧
        strContains script "Promise" = true) →
      strContains script "startTime: performance.now()" = true →
      (execute_script st script args).2 =
        ScriptResult.str "__latencyMonitor_test_123") ∧
    (¬ (strContains script "MutationObserver" = true ∧
        strContains script "Promise" = true) →
      strContains script "startTime: performance.now()" = false →
      strContains script "firstMutationTime" = true →
      strContains script "mutationCount" = true →
      (execute_script st script args).2 =
        ScriptResult.snapshot ⟨1000, 1050, 1500, 15⟩) ∧
    (¬ (strContains script "MutationObserver" = true ∧
        strContains script "Promise" = true) →
      strContains script "startTime: performance.now()" = false →
      ¬ (strContains script "firstMutationTime" = true ∧
        strContains script "mutationCount" = true) →
      (execute_script st script args).2 = defaultResult st) ∧
    (st.scriptResults = [] → defaultResult st = ScriptResult.pyNone) ∧
    (∀ (st2 : MockWebDriver) (args2 : List String),
      st.scriptResults = st2.scriptResults →
      (execute_script st script args).2 =
        (execute_script st2 script args2).2) := by
  refine ⟨?_, ?_, ?_, ?_, ?_, ?_, ?_, ?_⟩
  · unfold execute_script
    split <;> [rfl; skip]
    split <;> [rfl; skip]
    split <;> rfl
  · unfold execute_script
    split <;> [rfl; skip]
    split <;> [rfl; skip]
    split <;> rfl
  · intro h1 h2
    unfold execute_script
    rw [if_pos (by rw [h1, h2]; rfl)]
  · intro h1 h2
    have hb := band_eq_false_of_not_both h1
    unfold execute_script
    rw [if_neg (by rw [hb]; simp), if_pos h2]
  · intro h1 h2 h3 h4
    have hb := band_eq_false_of_not_both h1
    unfold execute_script
    rw [if_neg (by rw [hb]; simp), if_neg (by rw [h2]; simp),
      if_pos (by rw [h3, h4]; rfl)]
  · intro h1 h2 h3
    have hb := band_eq_false_of_not_both h1
    have hc := band_eq_false_of_not_both h3
    unfold execute_script
    rw [if_neg (by rw [hb]; simp), if_neg (by rw [h2]; simp),
      if_neg (by rw [hc]; simp)]
  · intro h
    unfold defaultResult
    rw [h]
    rfl
  · intro st2 args2 hsr
    unfold execute_script
    have hd : defaultResult st = defaultResult st2 := by
      unfold defaultResult
      rw [hsr]
    split <;> [rfl; skip]
    split <;> [rfl; skip]
    split <;> simp [hd]

/-- Witness for C10: a script containing both observer markers returns
the mocked element even though it also contains the retrieve markers
(first-match dispatch), and a plain script on a fresh driver returns
Python None. -/
theorem execute_script_spec_witness :
    (execute_script ⟨[], []⟩
        "new MutationObserver with Promise and firstMutationTime mutationCount"
        []).2 = ScriptResult.element ⟨"Mocked response text", "div"⟩ ∧
    (execute_script ⟨[], []⟩ "plain script" []).2 = ScriptResult.pyNone := by
  constructor
  · exact (execute_script_spec ⟨[], []⟩
      "new MutationObserver with Promise and firstMutationTime mutationCount"
      []).2.2.1 (by decide) (by decide)
  · have h := (execute_script_spec ⟨[], []⟩ "plain script" []).2.2.2.2.2.1
      (by decide) (by decide) (by decide)
    rw [h]
    exact (execute_script_spec ⟨[], []⟩ "plain script" []).2.2.2.2.2.2.1 rfl

end ChatbotTest
